import Mathlib

/-!
Verification development for the MetaNote ASR client adapter
(src/MetaNote-main/asr_client.py).

The module is shallowly embedded: Python strings become `List Char`,
fallible statements become `Option` / `Except`, the spawned external
process and the HTTP transport become explicit behaviour oracles passed
to the embedded operations, and the observable side effects (process
spawns, file unlinks, file-handle state) are returned as explicit data.
Byte-to-text decoding (UTF-8 with a lossy fallback, lines 241-253 of the
source) always produces text and no claim concerns it, so process output
is modelled as the already decoded text.
-/

/-- Python text is a sequence of unicode code points. -/
abbrev Str := List Char

/-! ## Python string primitives used by the source -/

/-- Code points stripped by Python str.strip() with no argument
(the CPython Py_UNICODE_ISSPACE set). -/
def isPySpace (c : Char) : Bool :=
  (0x09 ≤ c.toNat && c.toNat ≤ 0x0D) || (0x1C ≤ c.toNat && c.toNat ≤ 0x1F) ||
  c.toNat == 0x20 || c.toNat == 0x85 || c.toNat == 0xA0 || c.toNat == 0x1680 ||
  (0x2000 ≤ c.toNat && c.toNat ≤ 0x200A) || c.toNat == 0x2028 || c.toNat == 0x2029 ||
  c.toNat == 0x202F || c.toNat == 0x205F || c.toNat == 0x3000

/-- Python str.strip(chars): remove every leading and trailing character
satisfying the predicate. -/
def pyStripWith (p : Char → Bool) (s : Str) : Str :=
  ((s.dropWhile p).reverse.dropWhile p).reverse

/-- Python str.strip() with no argument. -/
def pyStrip (s : Str) : Str := pyStripWith isPySpace s

/-- Python str.strip of a left bracket, as in time_part.strip of the
source line 267/296: removes all leading and trailing brackets. -/
def pyStripBrackets (s : Str) : Str := pyStripWith (fun c => c == '[') s

/-- Locate the leftmost occurrence of a (nonempty) separator: returns the
part before it and the part after it, or none when the separator does not
occur.  This is the splitting step of Python str.split. -/
def breakOnSep (sep : Str) : Str → Option (Str × Str)
  | [] => none
  | c :: rest =>
    if sep.isPrefixOf (c :: rest) then some ([], (c :: rest).drop sep.length)
    else
      match breakOnSep sep rest with
      | some (pre, post) => some (c :: pre, post)
      | none => none

/-- Python substring containment, as in the source test that a line
contains the arrow. -/
def hasSub (sep s : Str) : Bool := (breakOnSep sep s).isSome

/-- Python str.split(sep) on every non-overlapping occurrence, fuelled so
that the recursion is structural; each step consumes at least one
character, so fuel equal to the length of the string always suffices. -/
def pySplitGo (sep : Str) : Nat → Str → List Str
  | 0, s => [s]
  | fuel + 1, s =>
    match breakOnSep sep s with
    | none => [s]
    | some (pre, post) => pre :: pySplitGo sep fuel post

/-- Python str.split(sep). -/
def pySplit (sep s : Str) : List Str := pySplitGo sep s.length s

/-- Python str.split(sep, 1): split at the first occurrence only,
failing (for the tuple unpacking of the source line 266/295) when the
separator is absent. -/
def pySplitFirst (sep s : Str) : Option (Str × Str) := breakOnSep sep s

/-! ## Output sanitizer (source lines 254-257)

The source removes ANSI escape sequences with
re.compile applied to the pattern
ESC followed by one character of the class 0x40-0x5A or 0x5C-0x5F,
or ESC left-bracket, then parameter bytes 0x30-0x3F, then intermediate
bytes 0x20-0x2F, then one final byte 0x40-0x7E.
The three CSI byte classes are pairwise disjoint and none contains ESC
or the left bracket, so the greedy deterministic matcher below is
exactly the regex matcher, and re.sub is the single left-to-right pass
over non-overlapping leftmost matches implemented by `ansiSub`. -/

/-- The escape control character. -/
def escChar : Char := Char.ofNat 27

/-- Character class of the two-byte escape alternative:
0x40-0x5A or 0x5C-0x5F. -/
def isTwoByteFinal (c : Char) : Bool :=
  (0x40 ≤ c.toNat && c.toNat ≤ 0x5A) || (0x5C ≤ c.toNat && c.toNat ≤ 0x5F)

/-- CSI parameter bytes. -/
def isParamByte (c : Char) : Bool := 0x30 ≤ c.toNat && c.toNat ≤ 0x3F

/-- CSI intermediate bytes. -/
def isInterByte (c : Char) : Bool := 0x20 ≤ c.toNat && c.toNat ≤ 0x2F

/-- CSI final bytes. -/
def isFinalByte (c : Char) : Bool := 0x40 ≤ c.toNat && c.toNat ≤ 0x7E

/-- Match the CSI body (after ESC and the left bracket): greedy parameter
bytes, greedy intermediate bytes, then one final byte; returns the
remainder of the text after the match. -/
def csiMatchRest (cs : Str) : Option Str :=
  match (cs.dropWhile isParamByte).dropWhile isInterByte with
  | [] => none
  | c :: r => if isFinalByte c then some r else none

/-- Match one escape sequence minus its leading ESC; returns the
remainder of the text after the match. -/
def escMatchRest : Str → Option Str
  | [] => none
  | c :: r =>
    if isTwoByteFinal c then some r
    else if c == '[' then csiMatchRest r
    else none

/-- Single left-to-right pass of re.sub with the empty replacement:
at each position, remove the leftmost match and resume after it,
otherwise keep the character.  Fuelled structurally; every step consumes
at least one character so fuel equal to the length always suffices. -/
def ansiSubGo : Nat → Str → Str
  | 0, cs => cs
  | _ + 1, [] => []
  | fuel + 1, c :: rest =>
    if c == escChar then
      match escMatchRest rest with
      | some r => ansiSubGo fuel r
      | none => c :: ansiSubGo fuel rest
    else c :: ansiSubGo fuel rest

/-- The sanitizer of source line 255-256: remove all (leftmost,
non-overlapping) matches of the ANSI escape pattern. -/
def ansiSub (cs : Str) : Str := ansiSubGo cs.length cs

/-- Text contains the ESC byte somewhere. -/
def hasEsc (cs : Str) : Bool := cs.any (fun c => c == escChar)

/-- Text contains, at some position, a match of the escape pattern
(every match begins with ESC, so only ESC positions are inspected). -/
def hasEscMatch : Str → Bool
  | [] => false
  | c :: rest => (c == escChar && (escMatchRest rest).isSome) || hasEscMatch rest

/-- Every occurrence of the ESC byte begins a match of the escape
pattern. -/
def escAllMatched : Str → Bool
  | [] => true
  | c :: rest => (c != escChar || (escMatchRest rest).isSome) && escAllMatched rest

/-- The strings that consist of exactly one escape sequence of the
pattern defined by the source regex: ESC then a two-byte final, or
ESC, left bracket, parameter bytes, intermediate bytes and a final
byte. -/
inductive EscSeq : Str → Prop
  | twoByte (c : Char) : isTwoByteFinal c = true → EscSeq [escChar, c]
  | csi (ps is fin : Str) (f : Char) :
      (∀ p ∈ ps, isParamByte p = true) →
      (∀ i ∈ is, isInterByte i = true) →
      isFinalByte f = true → fin = ps ++ is ++ [f] →
      EscSeq (escChar :: '[' :: fin)

/-! ## Segment parser (source lines 286-306; the identical first pass at
lines 260-275 computes a list that the same branch immediately
overwrites, so only this pass is observable) -/

/-- A parsed transcript segment (source lines 299-303): raw trimmed
substrings of the transcript line, never reparsed as numbers. -/
structure Segment where
  start : Str
  stop : Str
  text : Str
  deriving DecidableEq

/-- The segment-line predicate of source line 292: the trimmed line
starts with a left bracket and contains the arrow. -/
def segLinePred (line : Str) : Bool :=
  "[".toList.isPrefixOf line && hasSub "-->".toList line

/-- Parse one trimmed segment line (source lines 295-303): split at the
first right bracket into a time part and a text part (tuple unpacking
fails when no right bracket occurs), strip brackets from the time part,
split the time part at the arrow (tuple unpacking fails unless this
yields exactly two pieces), and trim the three fields.  Failure of
either unpacking is the per-line exception that the source catches and
turns into a skip. -/
def parseSegmentLine (line : Str) : Option Segment :=
  match pySplitFirst "]".toList line with
  | none => none
  | some (timePart0, text) =>
    let timePart := pyStripBrackets timePart0
    match pySplit "-->".toList timePart with
    | [s, e] => some ⟨pyStrip s, pyStrip e, pyStrip text⟩
    | _ => none

/-- One iteration of the parsing loop (source lines 289-306): trim the
line, test the predicate, and parse, skipping the line on a per-line
parse failure. -/
def lineStep (raw : Str) : Option Segment :=
  let line := pyStrip raw
  if segLinePred line then parseSegmentLine line else none

/-- The parsing loop over a list of lines, appending the segments in
line order. -/
def parseLines (ls : List Str) : List Segment := ls.filterMap lineStep

/-- The whole parse of the sanitized stdout text (source lines 287-306):
strip the text, split it on newlines, and run the loop. -/
def parseSegments (text : Str) : List Segment :=
  parseLines (pySplit "\n".toList (pyStrip text))

/-! ## POSIX path helpers used by the source (os.path.dirname, join,
basename, translated from posixpath) -/

/-- Index one past the last slash of a path (0 when no slash occurs):
p.rfind of the separator, plus one. -/
def afterLastSlash (p : Str) : Nat :=
  p.length - (p.reverse.takeWhile (fun c => c != '/')).length

/-- posixpath.dirname: the part before the last slash, with trailing
slashes removed unless the head consists only of slashes. -/
def posixDirname (p : Str) : Str :=
  let head := p.take (afterLastSlash p)
  if head.any (fun c => c != '/') then
    (head.reverse.dropWhile (fun c => c == '/')).reverse
  else head

/-- posixpath.join of two components. -/
def posixJoin (a b : Str) : Str :=
  if "/".toList.isPrefixOf b then b
  else if a = [] || a.getLast? == some '/' then a ++ b
  else a ++ "/".toList ++ b

/-- posixpath.basename: the part after the last slash. -/
def posixBasename (p : Str) : Str := p.drop (afterLastSlash p)

/-! ## Failure taxonomy (spec section 7)

The source reports every failure by logging a branch-specific message
and returning None; each return-None site is mapped to the failure kind
the spec assigns to that branch, so that the embedded operations return
a typed failure instead of the bare None. -/

/-- The failure kinds of the adapter operations. -/
inductive Failure where
  | fileNotFound
  | executableNotFound
  | timeout
  | recognitionFailed (detail : Str)
  | connectionError
  | httpError (status : Nat) (body : Str)
  | audioExtractionFailed
  | unexpectedFailure
  deriving DecidableEq

/-! ## Local transcription adapter (class LocalASRClient) -/

/-- The local adapter configuration (source lines 165-174). -/
structure LocalASRClient where
  whisper_cli_path : Str
  model_path : Str

/-- The operating-system facts a call can observe: which paths exist,
the process-wide environment variables, and the absolutization of a
path performed by os.path.abspath (an OS call that depends on the
current directory, so it is part of the OS oracle). -/
structure OSEnv where
  fs : Str → Bool
  environ : Str → Option Str
  abspath : Str → Str

/-- Behaviour of one attempted run of the external command: it either
completes after durationSec wall-clock seconds with an exit code and
decoded output streams, or spawning raises FileNotFoundError, or some
other host-level exception is raised. -/
inductive ProcBehavior where
  | completes (exitCode : Int) (stdout stderr : Str) (durationSec : Nat)
  | execNotFound
  | raisesOther

/-- Outcome of subprocess.run as observed by the caller. -/
inductive RunOutcome where
  | completed (exitCode : Int) (stdout stderr : Str)
  | timeoutExpired
  | fileNotFoundError
  | otherError

/-- subprocess.run with capture_output, check disabled and a timeout
(source lines 227-233): a completed run whose duration exceeds the
timeout raises TimeoutExpired instead of returning. -/
def subprocessRun (timeoutSec : Nat) (b : ProcBehavior) : RunOutcome :=
  match b with
  | .execNotFound => .fileNotFoundError
  | .raisesOther => .otherError
  | .completes code out err dur =>
    if timeoutSec < dur then .timeoutExpired else .completed code out err

/-- The hard timeout passed to subprocess.run (source line 231). -/
def whisperTimeoutSec : Nat := 120

/-- The environment variable controlling the dynamic-library search. -/
def dyldKey : Str := "DYLD_LIBRARY_PATH".toList

/-- The fixed candidate library directories relative to the executable
(source lines 198-209): sibling build-output subdirectories of the
directory two levels above the absolutized executable path. -/
def possibleLibDirs (os : OSEnv) (c : LocalASRClient) : List Str :=
  let cliDir := posixDirname (os.abspath c.whisper_cli_path)
  let buildDir := posixDirname cliDir
  [posixJoin buildDir "src".toList,
   posixJoin (posixJoin buildDir "ggml".toList) "src".toList,
   posixJoin (posixJoin (posixJoin buildDir "ggml".toList) "src".toList) "ggml-blas".toList,
   posixJoin (posixJoin (posixJoin buildDir "ggml".toList) "src".toList) "ggml-metal".toList]

/-- Only the candidate directories that exist (source line 212). -/
def existingLibDirs (os : OSEnv) (c : LocalASRClient) : List Str :=
  (possibleLibDirs os c).filter os.fs

/-- Colon-join a list of paths (source line 217). -/
def colonJoin : List Str → Str
  | [] => []
  | [d] => d
  | d :: rest => d ++ ":".toList ++ colonJoin rest

/-- The environment map handed to the spawned process (source lines
214-223): a copy of the process-wide environment, with the existing
candidate directories, colon-joined, prepended to DYLD_LIBRARY_PATH
(preserving a nonempty prior value after a colon) when any candidate
exists. -/
def childEnv (os : OSEnv) (c : LocalASRClient) : Str → Option Str :=
  let dirs := existingLibDirs os c
  if dirs = [] then os.environ
  else fun k =>
    if k = dyldKey then
      let lib := colonJoin dirs
      let prior := (os.environ dyldKey).getD []
      some (if prior = [] then lib else lib ++ ":".toList ++ prior)
    else os.environ k

/-- The command line built at source lines 187-194. -/
def whisperCommand (c : LocalASRClient) (audio_path : Str) : List Str :=
  [c.whisper_cli_path, "-m".toList, c.model_path, "-f".toList, audio_path,
   "-otxt".toList, "-l".toList, "zh".toList, "-pc".toList]

/-- One recorded process spawn: the command, the environment map passed
to it, and the timeout passed to subprocess.run. -/
structure SpawnRecord where
  cmd : List Str
  env : Str → Option Str
  timeoutSec : Nat

/-- The success payload of a recognition call (source lines 312-319). -/
structure TranscriptionResult where
  status : Str
  filename : Str
  segments : List Segment
  full_text : Str
  processing_time : Option Nat
  model : Str
  deriving DecidableEq

/-- Everything observable about one local recognition call: its result,
the process spawns it performed, and the process-wide environment after
the call returns. -/
structure LocalRecogOutput where
  result : Except Failure TranscriptionResult
  spawned : List SpawnRecord
  finalEnviron : Str → Option Str

/-- LocalASRClient.recognize_audio (source lines 185-334).  The audio
path is used only inside the command line and the result filename: the
source performs no existence check on it.  On a completed run the stdout
text is sanitized and, when the exit code is zero, parsed into segments;
a nonzero exit code is reported with the first 1000 characters of the
decoded stderr; TimeoutExpired, FileNotFoundError and any other
exception of subprocess.run map to their failure kinds.  The source
reads os.environ only through the copy that becomes the child
environment, and never writes it, so the final environment equals the
initial one. -/
def LocalASRClient.recognize_audio (c : LocalASRClient) (os : OSEnv)
    (proc : ProcBehavior) (audio_path : Str) : LocalRecogOutput :=
  let env := childEnv os c
  let res : Except Failure TranscriptionResult :=
    match subprocessRun whisperTimeoutSec proc with
    | .completed code out err =>
      let stdout_text := ansiSub out
      let stderr_text := err
      if code = 0 then
        .ok { status := "success".toList,
              filename := posixBasename audio_path,
              segments := parseSegments stdout_text,
              full_text := stdout_text,
              processing_time := none,
              model := "whisper.cpp-ggml-base".toList }
      else .error (.recognitionFailed (stderr_text.take 1000))
    | .timeoutExpired => .error .timeout
    | .fileNotFoundError => .error .executableNotFound
    | .otherError => .error .unexpectedFailure
  { result := res,
    spawned := [⟨whisperCommand c audio_path, env, whisperTimeoutSec⟩],
    finalEnviron := os.environ }

/-! ## Remote transcription adapter (class ASRClient) -/

/-- The remote adapter configuration (source lines 18-25). -/
structure ASRClient where
  server_url : Str

/-- The constructor strips trailing slashes from the server URL. -/
def mkASRClient (url : Str) : ASRClient :=
  ⟨(url.reverse.dropWhile (fun c => c == '/')).reverse⟩

/-- Behaviour of the one HTTP POST a recognition call issues: a response
with a status and body (jsonRaises records that reading the JSON body,
or a required field of it, raises), or a ConnectionError, or any other
exception raised mid-request. -/
inductive HttpBehavior where
  | resp (status : Nat) (body : Str) (jsonRaises : Bool)
  | connectionError
  | raisesOther

/-- Everything observable about one remote recognition call: its result
(the JSON payload is abstracted as the response body text), whether the
upload file handle was opened, and whether it was closed again before
the call returned. -/
structure RemoteRecogOutput where
  result : Except Failure Str
  opened : Bool
  closed : Bool

/-- ASRClient.recognize_audio (source lines 51-101).  A missing file
fails before the handle is opened.  Otherwise the handle is opened and
the POST is issued; the close at source line 77 runs only when the POST
returns a response, and the generic exception handler at lines 94-101
closes the handle again, but the ConnectionError handler at lines 91-93
returns without closing it. -/
def ASRClient.recognize_audio (client : ASRClient) (fs : Str → Bool)
    (http : HttpBehavior) (audio_path : Str) : RemoteRecogOutput :=
  if fs audio_path then
    match http with
    | .resp status body jsonRaises =>
      if status = 200 then
        if jsonRaises then ⟨.error .unexpectedFailure, true, true⟩
        else ⟨.ok body, true, true⟩
      else ⟨.error (.httpError status body), true, true⟩
    | .connectionError => ⟨.error .connectionError, true, false⟩
    | .raisesOther => ⟨.error .unexpectedFailure, true, true⟩
  else ⟨.error .fileNotFound, false, false⟩

/-- Behaviour of one call of the caller-supplied extraction function:
it returns an optional audio path (None, or possibly the empty string,
both falsy) or raises. -/
inductive ExtractBehavior where
  | value (p : Option Str)
  | raises

/-- The observable side effects of a process_video call. -/
inductive VideoEffect where
  | recognizeCall (path : Str)
  | unlinkAttempt (path : Str)
  deriving DecidableEq

deriving instance DecidableEq for Except

/-- Result and effects of one process_video call. -/
structure VideoOutput where
  result : Except Failure Str
  effects : List VideoEffect
  deriving DecidableEq

/-- ASRClient.process_video (source lines 103-139): a missing extraction
function returns the catch-all failure; a falsy extracted path is the
extraction failure; otherwise recognition runs on the extracted path and
the temporary file is unlinked whenever it exists, with an unlink
exception caught and logged (unlinkRaises is therefore never consulted),
and the recognition result is returned; an exception raised by the
extraction function reaches the outer handler. -/
def ASRClient.process_video (client : ASRClient) (fs : Str → Bool)
    (http : HttpBehavior) (unlinkRaises : Bool)
    (extract : Option (Str → ExtractBehavior)) (video_path : Str) : VideoOutput :=
  match extract with
  | none => ⟨.error .unexpectedFailure, []⟩
  | some f =>
    match f video_path with
    | .raises => ⟨.error .unexpectedFailure, []⟩
    | .value none => ⟨.error .audioExtractionFailed, []⟩
    | .value (some p) =>
      if p = [] then ⟨.error .audioExtractionFailed, []⟩
      else
        let r := (ASRClient.recognize_audio client fs http p).result
        ⟨r, VideoEffect.recognizeCall p ::
            (if fs p then [VideoEffect.unlinkAttempt p] else [])⟩

/-- LocalASRClient.process_video (source lines 337-341): the body is the
single statement pass, so the call returns None having performed no
extraction, recognition or cleanup. -/
def LocalASRClient.process_video (c : LocalASRClient)
    (extract : Option (Str → ExtractBehavior)) (video_path : Str) :
    Option Str × List VideoEffect :=
  (none, [])

/-! ## Claim-side restatement of the per-line parse

`claimParseSegLine` follows the wording of the (amended) parsing
description rather than the source text: the part of the line before the
first right bracket, with brackets stripped, must contain exactly one
occurrence of the arrow; the segment is then that part split at the
arrow, together with the part after the first right bracket, all three
fields trimmed.  It is compared with the source-derived
`parseSegmentLine` by a refinement theorem below. -/
def claimParseSegLine (line : Str) : Option Segment :=
  if line.any (fun c => c == ']') then
    let timeRange := pyStripBrackets (line.takeWhile (fun c => c != ']'))
    let text := (line.dropWhile (fun c => c != ']')).drop 1
    match breakOnSep "-->".toList timeRange with
    | some (s, e) =>
      if hasSub "-->".toList e then none
      else some ⟨pyStrip s, pyStrip e, pyStrip text⟩
    | none => none
  else none

/-! ## Sanitizer lemmas -/

theorem csiMatchRest_suffix {cs r : Str} (h : csiMatchRest cs = some r) : r <:+ cs := by
  unfold csiMatchRest at h
  split at h
  · exact Option.noConfusion h
  · next c t hm =>
    split at h
    · have ht : t = r := Option.some.inj h
      subst ht
      have h1 : t <:+ (cs.dropWhile isParamByte).dropWhile isInterByte := by
        rw [hm]; exact List.suffix_cons c t
      exact h1.trans ((List.dropWhile_suffix _).trans (List.dropWhile_suffix _))
    · exact Option.noConfusion h

theorem csiMatchRest_length {cs r : Str} (h : csiMatchRest cs = some r) :
    r.length < cs.length := by
  have hs : r.length + 1 ≤ cs.length := by
    unfold csiMatchRest at h
    split at h
    · exact Option.noConfusion h
    · next c t hm =>
      split at h
      · have ht : t = r := Option.some.inj h
        subst ht
        have h1 : ((cs.dropWhile isParamByte).dropWhile isInterByte).length ≤ cs.length :=
          ((List.dropWhile_suffix _).trans (List.dropWhile_suffix _)).length_le
        rw [hm] at h1
        simpa using h1
      · exact Option.noConfusion h
  omega

theorem escMatchRest_suffix {cs r : Str} (h : escMatchRest cs = some r) : r <:+ cs := by
  cases cs with
  | nil => exact Option.noConfusion h
  | cons c t =>
    simp only [escMatchRest] at h
    by_cases h1 : isTwoByteFinal c = true
    · rw [if_pos h1] at h
      have ht : t = r := Option.some.inj h
      subst ht; exact List.suffix_cons c t
    · rw [if_neg h1] at h
      by_cases h2 : (c == '[') = true
      · rw [if_pos h2] at h
        exact (csiMatchRest_suffix h).trans (List.suffix_cons c t)
      · rw [if_neg h2] at h
        exact Option.noConfusion h

theorem escMatchRest_length {cs r : Str} (h : escMatchRest cs = some r) :
    r.length < cs.length := by
  cases cs with
  | nil => exact Option.noConfusion h
  | cons c t =>
    simp only [escMatchRest] at h
    by_cases h1 : isTwoByteFinal c = true
    · rw [if_pos h1] at h
      have ht : t = r := Option.some.inj h
      subst ht; simp
    · rw [if_neg h1] at h
      by_cases h2 : (c == '[') = true
      · rw [if_pos h2] at h
        have := csiMatchRest_length h
        simp only [List.length_cons]
        omega
      · rw [if_neg h2] at h
        exact Option.noConfusion h

theorem escAllMatched_cons {c : Char} {rest : Str}
    (h : escAllMatched (c :: rest) = true) : escAllMatched rest = true := by
  simp only [escAllMatched, Bool.and_eq_true] at h
  exact h.2

theorem escAllMatched_suffix {l₁ l₂ : Str} (hs : l₁ <:+ l₂)
    (h : escAllMatched l₂ = true) : escAllMatched l₁ = true := by
  obtain ⟨t, rfl⟩ := hs
  induction t with
  | nil => simpa using h
  | cons c t ih => exact ih (escAllMatched_cons h)

theorem hasEscMatch_hasEsc {cs : Str} (h : hasEscMatch cs = true) :
    hasEsc cs = true := by
  induction cs with
  | nil => simp [hasEscMatch] at h
  | cons c rest ih =>
    simp only [hasEscMatch, Bool.or_eq_true, Bool.and_eq_true] at h
    simp only [hasEsc, List.any_cons, Bool.or_eq_true]
    rcases h with ⟨h1, _⟩ | h1
    · exact Or.inl h1
    · exact Or.inr (by simpa [hasEsc] using ih h1)

theorem ansiSubGo_id_of_noMatch :
    ∀ (fuel : Nat) (cs : Str), cs.length ≤ fuel → hasEscMatch cs = false →
      ansiSubGo fuel cs = cs := by
  intro fuel
  induction fuel with
  | zero => intro cs _ _; rfl
  | succ fuel ih =>
    intro cs hlen hm
    cases cs with
    | nil => rfl
    | cons c rest =>
      simp only [hasEscMatch, Bool.or_eq_false_iff, Bool.and_eq_false_iff] at hm
      have hlen2 : rest.length ≤ fuel := by
        simp only [List.length_cons] at hlen; omega
      simp only [ansiSubGo]
      by_cases hc : (c == escChar) = true
      · rw [if_pos hc]
        cases hr : escMatchRest rest with
        | some r =>
          exfalso
          rcases hm.1 with h1 | h1
          · rw [hc] at h1; exact Bool.noConfusion h1
          · rw [hr] at h1; exact Bool.noConfusion h1
        | none =>
          show c :: ansiSubGo fuel rest = c :: rest
          rw [ih rest hlen2 hm.2]
      · rw [if_neg hc]
        rw [ih rest hlen2 hm.2]

theorem ansiSubGo_noEsc :
    ∀ (fuel : Nat) (cs : Str), cs.length ≤ fuel → escAllMatched cs = true →
      hasEsc (ansiSubGo fuel cs) = false := by
  intro fuel
  induction fuel with
  | zero =>
    intro cs hlen _
    have hnil : cs = [] := List.length_eq_zero.mp (Nat.le_zero.mp hlen)
    subst hnil; rfl
  | succ fuel ih =>
    intro cs hlen hall
    cases cs with
    | nil => rfl
    | cons c rest =>
      have hall2 : escAllMatched rest = true := escAllMatched_cons hall
      have hlen2 : rest.length ≤ fuel := by
        simp only [List.length_cons] at hlen; omega
      simp only [ansiSubGo]
      by_cases hc : (c == escChar) = true
      · rw [if_pos hc]
        cases hr : escMatchRest rest with
        | none =>
          exfalso
          simp only [escAllMatched, Bool.and_eq_true, Bool.or_eq_true] at hall
          rcases hall.1 with h1 | h1
          · rw [bne] at h1
            rw [hc] at h1
            exact Bool.noConfusion h1
          · rw [hr] at h1
            exact Bool.noConfusion h1
        | some r =>
          show hasEsc (ansiSubGo fuel r) = false
          have hlt : r.length < rest.length := escMatchRest_length hr
          exact ih r (by omega) (escAllMatched_suffix (escMatchRest_suffix hr) hall2)
      · rw [if_neg hc]
        have hc2 : (c == escChar) = false := by
          cases hb : (c == escChar) with
          | false => rfl
          | true => exact absurd hb hc
        simp only [hasEsc, List.any_cons, hc2, Bool.false_or]
        simpa [hasEsc] using ih rest hlen2 hall2

theorem escMatchRest_sound {cs r : Str} (h : escMatchRest cs = some r) :
    ∃ m, cs = m ++ r ∧ EscSeq (escChar :: m) := by
  cases cs with
  | nil => exact Option.noConfusion h
  | cons c t =>
    simp only [escMatchRest] at h
    by_cases h1 : isTwoByteFinal c = true
    · rw [if_pos h1] at h
      have ht : t = r := Option.some.inj h
      subst ht
      exact ⟨[c], rfl, EscSeq.twoByte c h1⟩
    · rw [if_neg h1] at h
      by_cases h2 : (c == '[') = true
      · rw [if_pos h2] at h
        have hc : c = '[' := by simpa using h2
        subst hc
        unfold csiMatchRest at h
        split at h
        · exact Option.noConfusion h
        · next f r2 hm =>
          split at h
          · next hf =>
            have hr2 : r2 = r := Option.some.inj h
            subst hr2
            refine ⟨'[' :: (t.takeWhile isParamByte ++
                (t.dropWhile isParamByte).takeWhile isInterByte ++ [f]), ?_, ?_⟩
            · simp only [List.cons_append]
              congr 1
              calc t = t.takeWhile isParamByte ++ t.dropWhile isParamByte :=
                    (List.takeWhile_append_dropWhile _ _).symm
                _ = t.takeWhile isParamByte ++
                      ((t.dropWhile isParamByte).takeWhile isInterByte ++
                        ((t.dropWhile isParamByte).dropWhile isInterByte)) := by
                    conv_rhs => rw [List.takeWhile_append_dropWhile]
                _ = t.takeWhile isParamByte ++
                      ((t.dropWhile isParamByte).takeWhile isInterByte ++ (f :: r2)) := by
                    rw [hm]
                _ = (t.takeWhile isParamByte ++
                      (t.dropWhile isParamByte).takeWhile isInterByte ++ [f]) ++ r2 := by
                    simp [List.append_assoc]
            · exact EscSeq.csi _ _ _ f (fun p hp => List.mem_takeWhile_imp hp)
                (fun i hi => List.mem_takeWhile_imp hi) hf rfl
          · exact Option.noConfusion h
      · rw [if_neg h2] at h
        exact Option.noConfusion h

theorem hasEscMatch_sound {cs : Str} (h : hasEscMatch cs = true) :
    ∃ pre m post, cs = pre ++ m ++ post ∧ EscSeq m := by
  induction cs with
  | nil => simp [hasEscMatch] at h
  | cons c rest ih =>
    simp only [hasEscMatch, Bool.or_eq_true, Bool.and_eq_true] at h
    rcases h with ⟨hc, hsome⟩ | h1
    · have hc2 : c = escChar := by simpa using hc
      cases hr : escMatchRest rest with
      | none => rw [hr] at hsome; exact Bool.noConfusion hsome
      | some r =>
        obtain ⟨m, hmeq, hseq⟩ := escMatchRest_sound hr
        exact ⟨[], escChar :: m, r, by simp [hc2, hmeq], hseq⟩
    · obtain ⟨pre, m, post, heq, hseq⟩ := ih h1
      exact ⟨c :: pre, m, post, by simp [heq], hseq⟩

theorem escSeq_esc_mem {m : Str} (h : EscSeq m) : escChar ∈ m := by
  cases h <;> simp

theorem no_escSeq_of_no_esc {cs : Str} (h : hasEsc cs = false) :
    ¬ ∃ pre m post, cs = pre ++ m ++ post ∧ EscSeq m := by
  rintro ⟨pre, m, post, heq, hseq⟩
  have hmem : escChar ∈ cs := by
    rw [heq]
    simp [escSeq_esc_mem hseq]
  have h2 : cs.any (fun c => c == escChar) = true :=
    List.any_eq_true.mpr ⟨escChar, hmem, by simp⟩
  unfold hasEsc at h
  rw [h2] at h
  exact Bool.noConfusion h

theorem ansiSub_id_of_noMatch {cs : Str} (h : hasEscMatch cs = false) :
    ansiSub cs = cs :=
  ansiSubGo_id_of_noMatch cs.length cs le_rfl h

theorem ansiSub_noEsc_of_allMatched {cs : Str} (h : escAllMatched cs = true) :
    hasEsc (ansiSub cs) = false :=
  ansiSubGo_noEsc cs.length cs le_rfl h

theorem ansiSub_id_of_noEsc {cs : Str} (h : hasEsc cs = false) : ansiSub cs = cs := by
  refine ansiSub_id_of_noMatch ?_
  cases hb : hasEscMatch cs with
  | false => rfl
  | true => rw [hasEscMatch_hasEsc hb] at h; exact Bool.noConfusion h

/-! ## Split and parse lemmas -/

theorem breakOnSep_single {c : Char} {l : Str} (h : l.any (fun x => x == c) = true) :
    breakOnSep [c] l =
      some (l.takeWhile (fun x => x != c), (l.dropWhile (fun x => x != c)).drop 1) := by
  induction l with
  | nil => simp at h
  | cons x rest ih =>
    by_cases hx : x = c
    · subst hx
      simp [breakOnSep, List.isPrefixOf, List.takeWhile_cons, List.dropWhile_cons]
    · have hxc : (x == c) = false := by simp [hx]
      rw [List.any_cons, hxc, Bool.false_or] at h
      have hcx : (c == x) = false := by
        simp only [beq_eq_false_iff_ne, ne_eq]
        exact fun hh => hx hh.symm
      simp only [breakOnSep, List.isPrefixOf, hcx, Bool.false_and, Bool.false_eq_true,
        if_false, ih h, List.takeWhile_cons, List.dropWhile_cons, bne, hxc, Bool.not_false,
        if_true]

theorem breakOnSep_single_none {c : Char} {l : Str}
    (h : l.any (fun x => x == c) = false) : breakOnSep [c] l = none := by
  induction l with
  | nil => rfl
  | cons x rest ih =>
    rw [List.any_cons, Bool.or_eq_false_iff] at h
    have hcx : (c == x) = false := by
      simp only [beq_eq_false_iff_ne, ne_eq]
      intro hh
      rw [hh] at h
      simpa using h.1
    simp only [breakOnSep, List.isPrefixOf, hcx, Bool.false_and, Bool.false_eq_true,
      if_false, ih h.2]

theorem pySplitGo_of_none {sep b : Str} (h : breakOnSep sep b = none) :
    ∀ fuel, pySplitGo sep fuel b = [b] := by
  intro fuel
  cases fuel with
  | zero => rfl
  | succ fuel => simp [pySplitGo, h]

theorem pySplit_of_none {sep b : Str} (h : breakOnSep sep b = none) :
    pySplit sep b = [b] :=
  pySplitGo_of_none h _

theorem breakOnSep_ne_nil {sep : Str} {pr : Str × Str} :
    breakOnSep sep [] = some pr → False := by
  intro h
  exact Option.noConfusion h

theorem breakOnSep_some_length {sep : Str} (hsep : sep ≠ []) :
    ∀ (s a b : Str), breakOnSep sep s = some (a, b) → b.length < s.length := by
  intro s
  induction s with
  | nil => intro a b h; exact Option.noConfusion h
  | cons c rest ih =>
    intro a b h
    simp only [breakOnSep] at h
    split at h
    · have hpr := Option.some.inj h
      have hb : b = (c :: rest).drop sep.length := (Prod.mk.injEq _ _ _ _ ▸ hpr).2.symm
      have hsl : 1 ≤ sep.length := List.length_pos.mpr hsep
      rw [hb, List.length_drop]
      simp only [List.length_cons]
      omega
    · split at h
      · next pre post hm =>
        have hpr := Option.some.inj h
        have hb : b = post := (Prod.mk.injEq _ _ _ _ ▸ hpr).2.symm
        have := ih pre post hm
        rw [hb]
        simp only [List.length_cons]
        omega
      · exact Option.noConfusion h

theorem pySplitGo_ne_nil (sep : Str) (fuel : Nat) (s : Str) :
    pySplitGo sep fuel s ≠ [] := by
  cases fuel with
  | zero => simp [pySplitGo]
  | succ fuel =>
    simp only [pySplitGo]
    cases hm : breakOnSep sep s with
    | none => simp
    | some pr => cases pr; simp

theorem pySplit_eq_pair_iff {sep s a b : Str} (hsep : sep ≠ []) :
    pySplit sep s = [a, b] ↔
      breakOnSep sep s = some (a, b) ∧ breakOnSep sep b = none := by
  constructor
  · intro h
    unfold pySplit at h
    cases s with
    | nil => simp [pySplitGo] at h
    | cons c rest =>
      rw [show (c :: rest).length = rest.length + 1 from rfl] at h
      simp only [pySplitGo] at h
      cases hm : breakOnSep sep (c :: rest) with
      | none => rw [hm] at h; simp at h
      | some pr =>
        obtain ⟨pre, post⟩ := pr
        rw [hm] at h
        have h1 : pre = a ∧ pySplitGo sep rest.length post = [b] := by
          have := List.cons.injEq pre (pySplitGo sep rest.length post) a [b] ▸ h
          exact this
        obtain ⟨rfl, h2⟩ := h1
        cases hm2 : breakOnSep sep post with
        | none =>
          rw [pySplitGo_of_none hm2] at h2
          have h3 : post = b := (List.cons.injEq post [] b [] ▸ h2).1
          subst h3
          exact ⟨rfl, hm2⟩
        | some pr2 =>
          exfalso
          obtain ⟨p2, q2⟩ := pr2
          have hlt : post.length < (c :: rest).length :=
            breakOnSep_some_length hsep _ _ _ hm
          have hpost_pos : post ≠ [] := by
            intro hnil
            rw [hnil] at hm2
            exact Option.noConfusion hm2
          cases hf : rest.length with
          | zero =>
            have h0 : post.length = 0 := by
              simp only [List.length_cons] at hlt
              omega
            exact hpost_pos (List.length_eq_zero.mp h0)
          | succ n =>
            rw [hf] at h2
            simp only [pySplitGo] at h2
            rw [hm2] at h2
            have h4 : pySplitGo sep n q2 = [] := (List.cons.injEq p2 _ b [] ▸ h2).2
            exact pySplitGo_ne_nil sep n q2 h4
  · rintro ⟨h1, h2⟩
    cases s with
    | nil => exact Option.noConfusion h1
    | cons c rest =>
      unfold pySplit
      rw [show (c :: rest).length = rest.length + 1 from rfl]
      simp only [pySplitGo]
      rw [h1]
      show a :: pySplitGo sep rest.length b = [a, b]
      rw [pySplitGo_of_none h2]

theorem parseSegmentLine_no_rb {line : Str}
    (h : line.any (fun c => c == ']') = false) : parseSegmentLine line = none := by
  unfold parseSegmentLine pySplitFirst
  rw [show ("]".toList : Str) = [']'] from rfl, breakOnSep_single_none h]

theorem parseSegmentLine_eq_claim (line : Str) :
    parseSegmentLine line = claimParseSegLine line := by
  by_cases hrb : line.any (fun c => c == ']') = true
  case neg =>
    have hrb2 : line.any (fun c => c == ']') = false := by
      cases hb : line.any (fun c => c == ']') with
      | false => rfl
      | true => exact absurd hb hrb
    rw [parseSegmentLine_no_rb hrb2]
    unfold claimParseSegLine
    rw [if_neg hrb]
  case pos =>
    unfold parseSegmentLine claimParseSegLine pySplitFirst
    rw [show ("]".toList : Str) = [']'] from rfl, breakOnSep_single hrb, if_pos hrb]
    show (match pySplit "-->".toList (pyStripBrackets (line.takeWhile (fun x => x != ']'))) with
          | [s, e] => some (⟨pyStrip s, pyStrip e,
              pyStrip ((line.dropWhile (fun x => x != ']')).drop 1)⟩ : Segment)
          | _ => none) =
        (match breakOnSep "-->".toList (pyStripBrackets (line.takeWhile (fun x => x != ']'))) with
          | some (s, e) =>
            if hasSub "-->".toList e then none
            else some (⟨pyStrip s, pyStrip e,
              pyStrip ((line.dropWhile (fun x => x != ']')).drop 1)⟩ : Segment)
          | none => none)
    generalize pyStripBrackets (line.takeWhile (fun x => x != ']')) = tr
    cases hm : breakOnSep "-->".toList tr with
    | none => rw [pySplit_of_none hm]
    | some pr =>
      obtain ⟨s0, e0⟩ := pr
      cases hm2 : breakOnSep "-->".toList e0 with
      | none =>
        rw [(pySplit_eq_pair_iff (by decide)).mpr ⟨hm, hm2⟩]
        have hm2b : breakOnSep ['-', '-', '>'] e0 = none := by
          rw [show (['-', '-', '>'] : Str) = "-->".toList from rfl]
          exact hm2
        simp [hasSub, hm2b]
      | some pr2 =>
        obtain ⟨p, q⟩ := pr2
        have htr : tr ≠ [] := by
          intro h0; rw [h0] at hm; exact Option.noConfusion hm
        have he0 : e0 ≠ [] := by
          intro h0; rw [h0] at hm2; exact Option.noConfusion hm2
        have he0len : 1 ≤ e0.length := by
          cases e0 with
          | nil => exact absurd rfl he0
          | cons _ _ => simp
        have hlen : e0.length < tr.length := breakOnSep_some_length (by decide) _ _ _ hm
        cases tr with
        | nil => exact absurd rfl htr
        | cons c rest =>
          have hrl : 1 ≤ rest.length := by
            simp only [List.length_cons] at hlen; omega
          obtain ⟨n, hn⟩ : ∃ n, rest.length = n + 1 := by
            cases hr : rest.length with
            | zero => omega
            | succ n => exact ⟨n, rfl⟩
          have hval : pySplit "-->".toList (c :: rest) =
              s0 :: p :: pySplitGo "-->".toList n q := by
            unfold pySplit
            rw [show (c :: rest).length = rest.length + 1 from rfl]
            simp only [pySplitGo]
            rw [hm]
            show s0 :: pySplitGo "-->".toList rest.length e0 = _
            rw [hn]
            simp only [pySplitGo]
            rw [hm2]
          rw [hval]
          cases h3 : pySplitGo "-->".toList n q with
          | nil => exact absurd h3 (pySplitGo_ne_nil _ _ _)
          | cons z t2 =>
            have hm2b : breakOnSep ['-', '-', '>'] e0 = some (p, q) := by
              rw [show (['-', '-', '>'] : Str) = "-->".toList from rfl]
              exact hm2
            simp [hasSub, hm2b]

theorem lineStep_of_wellFormed {raw : Str} {seg : Segment}
    (hp : segLinePred (pyStrip raw) = true)
    (hc : claimParseSegLine (pyStrip raw) = some seg) :
    lineStep raw = some seg := by
  unfold lineStep
  rw [if_pos hp, parseSegmentLine_eq_claim, hc]

theorem lineStep_none_of_skip {raw : Str}
    (h : segLinePred (pyStrip raw) = false ∨ parseSegmentLine (pyStrip raw) = none) :
    lineStep raw = none := by
  unfold lineStep
  rcases h with h | h
  · rw [if_neg (by simp [h])]
  · by_cases hp : segLinePred (pyStrip raw) = true
    · rw [if_pos hp, h]
    · rw [if_neg hp]

theorem parseLines_insert {pre post : List Str} {raw : Str} {seg : Segment}
    (h : lineStep raw = some seg) :
    parseLines (pre ++ raw :: post) = parseLines pre ++ seg :: parseLines post := by
  unfold parseLines
  rw [List.filterMap_append]
  simp [List.filterMap_cons, h]

theorem parseLines_skip {pre post : List Str} {raw : Str}
    (h : lineStep raw = none) :
    parseLines (pre ++ raw :: post) = parseLines pre ++ parseLines post := by
  unfold parseLines
  rw [List.filterMap_append]
  simp [List.filterMap_cons, h]

/-! ## Unfolding helpers for the local adapter -/

theorem local_result_eq (c : LocalASRClient) (os : OSEnv) (proc : ProcBehavior)
    (path : Str) :
    (c.recognize_audio os proc path).result =
      match subprocessRun whisperTimeoutSec proc with
      | .completed code out err =>
        if code = 0 then
          .ok { status := "success".toList, filename := posixBasename path,
                segments := parseSegments (ansiSub out), full_text := ansiSub out,
                processing_time := none, model := "whisper.cpp-ggml-base".toList }
        else .error (.recognitionFailed (err.take 1000))
      | .timeoutExpired => .error .timeout
      | .fileNotFoundError => .error .executableNotFound
      | .otherError => .error .unexpectedFailure := rfl

theorem local_spawned_eq (c : LocalASRClient) (os : OSEnv) (proc : ProcBehavior)
    (path : Str) :
    (c.recognize_audio os proc path).spawned =
      [⟨whisperCommand c path, childEnv os c, whisperTimeoutSec⟩] := rfl

theorem local_environ_eq (c : LocalASRClient) (os : OSEnv) (proc : ProcBehavior)
    (path : Str) :
    (c.recognize_audio os proc path).finalEnviron = os.environ := rfl

/-! ## Claim theorems -/

/-- C1 counterexample: for the nonexistent path /missing.wav (the
filesystem oracle is constantly false) the local recognize_audio call
spawns the external process anyway and, the process completing with exit
code 0, even returns a success result instead of any failure; the claim
says such a call fails with FileNotFound without invoking the process. -/
theorem local_recognize_missing_file_cex :
    (LocalASRClient.recognize_audio ⟨"/w/build/bin/cli".toList, "/m.bin".toList⟩
        ⟨fun _ => false, fun _ => none, fun p => p⟩
        (.completes 0 [] [] 0) "/missing.wav".toList).result.isOk = true ∧
    (LocalASRClient.recognize_audio ⟨"/w/build/bin/cli".toList, "/m.bin".toList⟩
        ⟨fun _ => false, fun _ => none, fun p => p⟩
        (.completes 0 [] [] 0) "/missing.wav".toList).spawned.length = 1 :=
  ⟨by decide, rfl⟩

/-- C1 (amended): LocalASRClient.recognize_audio performs no existence
check on the audio path: for every path that does not exist on disk the
external process is still invoked, exactly once and with the command
naming that path, and the call never fails with FileNotFound (the
existence check with that failure belongs to the remote adapter). -/
theorem local_recognize_no_existence_check (c : LocalASRClient) (os : OSEnv)
    (proc : ProcBehavior) (path : Str) (hfs : os.fs path = false) :
    (c.recognize_audio os proc path).spawned.map SpawnRecord.cmd =
      [whisperCommand c path] ∧
    (c.recognize_audio os proc path).result ≠ Except.error Failure.fileNotFound := by
  constructor
  · rfl
  · rw [local_result_eq]
    cases subprocessRun whisperTimeoutSec proc with
    | completed code out err =>
      by_cases hc0 : code = 0 <;> simp [hc0]
    | timeoutExpired => simp
    | fileNotFoundError => simp
    | otherError => simp

/-- C1 witness: the amended statement at a concrete nonexistent path. -/
theorem local_recognize_no_existence_check_witness :
    (LocalASRClient.recognize_audio ⟨"/w2".toList, "/m2".toList⟩
        ⟨fun _ => false, fun _ => none, fun p => p⟩
        .execNotFound "/gone.wav".toList).spawned.map SpawnRecord.cmd =
      [whisperCommand ⟨"/w2".toList, "/m2".toList⟩ "/gone.wav".toList] ∧
    (LocalASRClient.recognize_audio ⟨"/w2".toList, "/m2".toList⟩
        ⟨fun _ => false, fun _ => none, fun p => p⟩
        .execNotFound "/gone.wav".toList).result ≠
      Except.error Failure.fileNotFound :=
  local_recognize_no_existence_check _ _ _ _ rfl

/-- C2 counterexample: the trimmed line "[hello] a --> b" satisfies the
segment-line predicate (starts with a left bracket and contains the
arrow) yet yields no segment, because the part before the first right
bracket contains no arrow; and the line "[a --> b[]x" yields stop "b"
rather than the "b[" the claimed leading-bracket-only strip would give,
because the source strips trailing brackets from the time part too. -/
theorem segment_parse_cex :
    segLinePred "[hello] a --> b".toList = true ∧
    parseSegments "[hello] a --> b".toList = [] ∧
    parseSegments "[a --> b[]x".toList =
      [⟨"a".toList, "b".toList, "x".toList⟩] :=
  ⟨by decide, by decide, by decide⟩

/-- C2 (amended): the per-line parse of the source equals the claim-side
procedure that requires a right bracket and exactly one arrow before it
and strips all leading and trailing brackets from the time part; every
line accepted by that procedure contributes exactly one segment at its
own position in line order, with no line reordered, merged or removed;
and the end-to-end scenario with stdout
"[00:00:00.000 --> 00:00:02.500]  Hello world" plus newline and exit
code 0 produces exactly the one claimed segment. -/
theorem segment_parse_amended :
    (∀ line : Str, parseSegmentLine line = claimParseSegLine line) ∧
    (∀ (pre post : List Str) (raw : Str) (seg : Segment),
        segLinePred (pyStrip raw) = true →
        claimParseSegLine (pyStrip raw) = some seg →
        parseLines (pre ++ raw :: post) = parseLines pre ++ seg :: parseLines post) ∧
    ((LocalASRClient.recognize_audio ⟨"/w".toList, "/m".toList⟩
        ⟨fun _ => false, fun _ => none, fun p => p⟩
        (.completes 0 "[00:00:00.000 --> 00:00:02.500]  Hello world\n".toList [] 0)
        "/tmp/audio.wav".toList).result =
      Except.ok
        { status := "success".toList,
          filename := "audio.wav".toList,
          segments := [⟨"00:00:00.000".toList, "00:00:02.500".toList,
                        "Hello world".toList⟩],
          full_text := "[00:00:00.000 --> 00:00:02.500]  Hello world\n".toList,
          processing_time := none,
          model := "whisper.cpp-ggml-base".toList }) := by
  refine ⟨parseSegmentLine_eq_claim, ?_, by decide⟩
  intro pre post raw seg hp hc
  exact parseLines_insert (lineStep_of_wellFormed hp hc)

/-- C2 witness: the amended per-line statement at a concrete line list. -/
theorem segment_parse_amended_witness :
    parseLines ["banner".toList, "[00:01.000 --> 00:02.000]  hi".toList, "".toList] =
      parseLines ["banner".toList] ++
        (⟨"00:01.000".toList, "00:02.000".toList, "hi".toList⟩ : Segment) ::
          parseLines ["".toList] :=
  segment_parse_amended.2.1 ["banner".toList] ["".toList]
    "[00:01.000 --> 00:02.000]  hi".toList _ (by decide) (by decide)

/-- C3: a line whose trimmed form fails the segment-line predicate, or
passes it but fails structural parsing, is skipped: the surrounding
lines contribute exactly the segments they would contribute without it;
and no per-line failure escalates to the call level: every local
recognition call whose process completes with exit code 0 within the
timeout returns a success result, whatever the stdout text. -/
theorem segment_parse_skip_total :
    (∀ (pre post : List Str) (raw : Str),
        (segLinePred (pyStrip raw) = false ∨ parseSegmentLine (pyStrip raw) = none) →
        parseLines (pre ++ raw :: post) = parseLines pre ++ parseLines post) ∧
    (∀ (c : LocalASRClient) (os : OSEnv) (out err path : Str) (dur : Nat),
        dur ≤ 120 →
        (c.recognize_audio os (.completes 0 out err dur) path).result.isOk = true) := by
  constructor
  · intro pre post raw h
    exact parseLines_skip (lineStep_none_of_skip h)
  · intro c os out err path dur hdur
    rw [local_result_eq]
    have hd : ¬ whisperTimeoutSec < dur := by
      simp only [whisperTimeoutSec]; omega
    simp [subprocessRun, hd, Except.isOk, Except.toBool]

/-- C3 witness: a malformed matching line between good lines is skipped,
and a call on arbitrary stdout with exit code 0 succeeds. -/
theorem segment_parse_skip_total_witness :
    parseLines ["[a --> b]  ok".toList, "[banner --> no bracket".toList,
        "[c --> d]  ok2".toList] =
      parseLines ["[a --> b]  ok".toList] ++ parseLines ["[c --> d]  ok2".toList] ∧
    (LocalASRClient.recognize_audio ⟨"/w".toList, "/m".toList⟩
        ⟨fun _ => false, fun _ => none, fun p => p⟩
        (.completes 0 "garbage\n".toList [] 3) "/a.wav".toList).result.isOk = true :=
  ⟨segment_parse_skip_total.1 ["[a --> b]  ok".toList] ["[c --> d]  ok2".toList]
      "[banner --> no bracket".toList (Or.inr (by decide)),
   segment_parse_skip_total.2 _ _ _ _ _ _ (by omega)⟩

/-- C4 counterexample: sanitizing the input consisting of ESC, then the
escape sequence ESC left-bracket 0 m, then the letter A removes only the
inner sequence, leaving ESC followed by A, which is itself a full match
of the escape pattern: the sanitized output still contains a substring
matching the pattern. -/
theorem sanitizer_residual_match_cex :
    ansiSub "\x1B\x1B[0mA".toList = [escChar, 'A'] ∧ EscSeq [escChar, 'A'] :=
  ⟨by decide, EscSeq.twoByte 'A' (by decide)⟩

/-- C4 (amended): on input containing no ESC byte the sanitizer returns
the input unchanged, so ordinary bracketed substrings are never removed;
on input in which every ESC byte begins a match of the escape pattern
the output contains no substring matching the pattern (the guarantee
fails only for a stray ESC that a removal juxtaposes with a following
letter); and in the end-to-end scenario the segment line containing
ESC[1m and ESC[0m around Hello is sanitized before parsing, yielding
segment text "Hello". -/
theorem sanitizer_amended :
    (∀ cs : Str, hasEsc cs = false → ansiSub cs = cs) ∧
    (∀ cs : Str, escAllMatched cs = true →
        ¬ ∃ pre m post, ansiSub cs = pre ++ m ++ post ∧ EscSeq m) ∧
    ((LocalASRClient.recognize_audio ⟨"/w".toList, "/m".toList⟩
        ⟨fun _ => false, fun _ => none, fun p => p⟩
        (.completes 0 "[00:00:01.000 --> 00:00:02.000]  \x1B[1mHello\x1B[0m\n".toList [] 0)
        "/a.wav".toList).result.map TranscriptionResult.segments =
      Except.ok [⟨"00:00:01.000".toList, "00:00:02.000".toList, "Hello".toList⟩]) :=
  ⟨fun _ h => ansiSub_id_of_noEsc h,
   fun _ h => no_escSeq_of_no_esc (ansiSub_noEsc_of_allMatched h),
   by decide⟩

/-- C4 witness: the amended statement at concrete inputs: a bracketed
timestamp range is preserved verbatim, and a fully matched styled string
sanitizes to output free of escape sequences. -/
theorem sanitizer_amended_witness :
    ansiSub "[00:00:01.000 --> 00:00:02.000]".toList =
      "[00:00:01.000 --> 00:00:02.000]".toList ∧
    ¬ ∃ pre m post,
        ansiSub "\x1B[1mHello\x1B[0m".toList = pre ++ m ++ post ∧ EscSeq m :=
  ⟨sanitizer_amended.1 _ (by decide), sanitizer_amended.2.1 _ (by decide)⟩

/-- C5 counterexample: sanitization is not idempotent: on the input
consisting of ESC, the sequence ESC left-bracket 0 m, and the letter A,
one pass leaves ESC A, and a second pass removes it. -/
theorem sanitize_not_idempotent_cex :
    ansiSub (ansiSub "\x1B\x1B[0mA".toList) ≠ ansiSub "\x1B\x1B[0mA".toList :=
  by decide

/-- C5 (amended): sanitizing already-clean text, text containing no
substring matching the escape pattern, returns it unchanged; the claimed
equivalent formulation, that a second sanitization pass never changes
the result of a first, is refuted by the counterexample. -/
theorem sanitize_clean_fixed (cs : Str)
    (h : ¬ ∃ pre m post, cs = pre ++ m ++ post ∧ EscSeq m) : ansiSub cs = cs := by
  refine ansiSub_id_of_noMatch ?_
  cases hb : hasEscMatch cs with
  | false => rfl
  | true => exact absurd (hasEscMatch_sound hb) h

/-- C5 witness: the amended statement at a concrete clean text. -/
theorem sanitize_clean_fixed_witness :
    ansiSub "plain transcript line".toList = "plain transcript line".toList :=
  sanitize_clean_fixed _ (no_escSeq_of_no_esc (by decide))

/-- C6: whenever the external process completes within the timeout with
a nonzero exit code, the local recognize_audio call fails with
RecognitionFailed carrying the first 1000 characters of the decoded
stderr, and nothing else: no segments accompany the failure. -/
theorem nonzero_exit_recognition_failed (c : LocalASRClient) (os : OSEnv)
    (path out err : Str) (code : Int) (dur : Nat)
    (hdur : dur ≤ 120) (hcode : code ≠ 0) :
    (c.recognize_audio os (.completes code out err dur) path).result =
      Except.error (.recognitionFailed (err.take 1000)) := by
  rw [local_result_eq]
  have hd : ¬ whisperTimeoutSec < dur := by
    simp only [whisperTimeoutSec]; omega
  simp [subprocessRun, hd, hcode]

/-- C6 witness: end-to-end scenario 4: exit code 1 with stderr
"model load error" fails with RecognitionFailed carrying that text. -/
theorem nonzero_exit_recognition_failed_witness :
    (LocalASRClient.recognize_audio ⟨"/w".toList, "/m".toList⟩
        ⟨fun _ => true, fun _ => none, fun p => p⟩
        (.completes 1 [] "model load error".toList 5) "/a.wav".toList).result =
      Except.error (.recognitionFailed "model load error".toList) := by
  rw [nonzero_exit_recognition_failed ⟨"/w".toList, "/m".toList⟩
    ⟨fun _ => true, fun _ => none, fun p => p⟩ "/a.wav".toList [] "model load error".toList
    1 5 (by omega) (by decide)]
  decide

/-- C7: whenever the external process would run longer than 120 seconds,
the local recognize_audio call fails with Timeout and returns nothing
else, and the timeout bound recorded on the one process spawn is exactly
120 seconds. -/
theorem timeout_exceeded_fails (c : LocalASRClient) (os : OSEnv)
    (path out err : Str) (code : Int) (dur : Nat) (hdur : 120 < dur) :
    (c.recognize_audio os (.completes code out err dur) path).result =
      Except.error Failure.timeout ∧
    (c.recognize_audio os (.completes code out err dur) path).spawned.map
        SpawnRecord.timeoutSec = [120] := by
  constructor
  · rw [local_result_eq]
    have hd : whisperTimeoutSec < dur := hdur
    simp [subprocessRun, hd]
  · rfl

/-- C7 witness: end-to-end scenario 3 at a run lasting 121 seconds. -/
theorem timeout_exceeded_fails_witness :
    (LocalASRClient.recognize_audio ⟨"/w".toList, "/m".toList⟩
        ⟨fun _ => true, fun _ => none, fun p => p⟩
        (.completes 0 [] [] 121) "/a.wav".toList).result =
      Except.error Failure.timeout ∧
    (LocalASRClient.recognize_audio ⟨"/w".toList, "/m".toList⟩
        ⟨fun _ => true, fun _ => none, fun p => p⟩
        (.completes 0 [] [] 121) "/a.wav".toList).spawned.map
        SpawnRecord.timeoutSec = [120] :=
  timeout_exceeded_fails _ _ _ _ _ _ _ (by omega)

/-- C8 counterexample: LocalASRClient.process_video is a stub whose body
is the single statement pass: at a concrete video path with an
extraction function that returns an audio path, the call returns no
result and performs no recognition and no cleanup, contradicting the
claimed behaviour for the local adapter. -/
theorem local_process_video_stub_cex :
    LocalASRClient.process_video ⟨"/w".toList, "/m".toList⟩
        (some fun _ => ExtractBehavior.value (some "/a.wav".toList))
        "/v.mp4".toList = (none, []) := rfl

/-- C8 (amended): the described contract is implemented by the remote
adapter ASRClient.process_video, while the local variant is a stub
returning no result for every input.  For the remote variant: a falsy
extracted path (None or empty) fails with AudioExtractionFailed before
any recognition; a truthy path is recognized, the temporary file is
unlinked exactly when it exists, whatever the recognition outcome, the
recognition result is returned unchanged, and a failing unlink never
changes the result. -/
theorem process_video_contract :
    (∀ (c : LocalASRClient) (extract : Option (Str → ExtractBehavior)) (video : Str),
        LocalASRClient.process_video c extract video = (none, [])) ∧
    (∀ (client : ASRClient) (fs : Str → Bool) (http : HttpBehavior)
        (ur : Bool) (f : Str → ExtractBehavior) (video : Str),
        (f video = .value none ∨ f video = .value (some [])) →
        ASRClient.process_video client fs http ur (some f) video =
          ⟨.error .audioExtractionFailed, []⟩) ∧
    (∀ (client : ASRClient) (fs : Str → Bool) (http : HttpBehavior)
        (ur : Bool) (f : Str → ExtractBehavior) (video p : Str),
        f video = .value (some p) → p ≠ [] →
        (ASRClient.process_video client fs http ur (some f) video).result =
          (ASRClient.recognize_audio client fs http p).result ∧
        (ASRClient.process_video client fs http ur (some f) video).effects =
          VideoEffect.recognizeCall p ::
            (if fs p then [VideoEffect.unlinkAttempt p] else [])) ∧
    (∀ (client : ASRClient) (fs : Str → Bool) (http : HttpBehavior)
        (f : Str → ExtractBehavior) (video : Str),
        ASRClient.process_video client fs http true (some f) video =
          ASRClient.process_video client fs http false (some f) video) := by
  refine ⟨fun _ _ _ => rfl, ?_, ?_, fun _ _ _ _ _ => rfl⟩
  · intro client fs http ur f video hf
    simp only [ASRClient.process_video]
    rcases hf with hf | hf
    · rw [hf]
    · rw [hf]; simp
  · intro client fs http ur f video p hf hp
    simp only [ASRClient.process_video]
    rw [hf]
    simp [if_neg hp]

/-- C8 witness: the contract components at concrete inputs, including an
extraction failure, a successful extraction followed by recognition and
an unlink attempt, and the local stub. -/
theorem process_video_contract_witness :
    ASRClient.process_video ⟨"http://s".toList⟩ (fun _ => false) .connectionError
        false (some fun _ => ExtractBehavior.value none) "/v.mp4".toList =
      ⟨.error .audioExtractionFailed, []⟩ ∧
    (ASRClient.process_video ⟨"http://s".toList⟩ (fun p => p == "/a.wav".toList)
        (.resp 200 "body".toList false) true
        (some fun _ => ExtractBehavior.value (some "/a.wav".toList))
        "/v.mp4".toList).result =
      (ASRClient.recognize_audio ⟨"http://s".toList⟩ (fun p => p == "/a.wav".toList)
        (.resp 200 "body".toList false) "/a.wav".toList).result ∧
    (ASRClient.process_video ⟨"http://s".toList⟩ (fun p => p == "/a.wav".toList)
        (.resp 200 "body".toList false) true
        (some fun _ => ExtractBehavior.value (some "/a.wav".toList))
        "/v.mp4".toList).effects =
      [VideoEffect.recognizeCall "/a.wav".toList,
       VideoEffect.unlinkAttempt "/a.wav".toList] ∧
    LocalASRClient.process_video ⟨"/w".toList, "/m".toList⟩
        (some fun _ => ExtractBehavior.value (some "/x.wav".toList))
        "/v2.mp4".toList = (none, []) := by
  refine ⟨process_video_contract.2.1 _ _ _ _ _ _ (Or.inl rfl),
    (process_video_contract.2.2.1 _ _ _ _ _ _ _ rfl (by decide)).1, ?_,
    process_video_contract.1 _ _ _⟩
  rw [(process_video_contract.2.2.1 ⟨"http://s".toList⟩ (fun p => p == "/a.wav".toList)
    (.resp 200 "body".toList false) true
    (fun _ => ExtractBehavior.value (some "/a.wav".toList)) "/v.mp4".toList
    "/a.wav".toList rfl (by decide)).2]
  decide

/-- C9: the code violates the claim: when the audio file exists and the
POST raises ConnectionError, the remote recognize_audio call takes the
handler at source lines 91-93, which returns without closing the upload
file handle, although the generic handler at lines 94-101 closes it on
every other exception; the call ends with the handle still open. -/
theorem remote_handle_leak_on_connection_error :
    (ASRClient.recognize_audio ⟨"http://localhost:8000".toList⟩
        (fun p => p == "/a.wav".toList) .connectionError "/a.wav".toList).opened
      = true ∧
    (ASRClient.recognize_audio ⟨"http://localhost:8000".toList⟩
        (fun p => p == "/a.wav".toList) .connectionError "/a.wav".toList).closed
      = false :=
  ⟨by decide, by decide⟩

/-- C10: the local recognize_audio call leaves the process-wide
environment exactly as it found it, while the one spawned process
receives the separately built child environment: that environment agrees
with the process-wide one on every variable other than
DYLD_LIBRARY_PATH, and, when any candidate library directory exists,
maps DYLD_LIBRARY_PATH to the colon-joined existing directories,
followed by a colon and the prior value when that value is nonempty. -/
theorem local_environ_frame (c : LocalASRClient) (os : OSEnv)
    (proc : ProcBehavior) (path : Str) :
    (c.recognize_audio os proc path).finalEnviron = os.environ ∧
    (c.recognize_audio os proc path).spawned.map SpawnRecord.env =
      [childEnv os c] ∧
    (∀ k : Str, k ≠ dyldKey → childEnv os c k = os.environ k) ∧
    (existingLibDirs os c ≠ [] →
      childEnv os c dyldKey =
        some (if (os.environ dyldKey).getD [] = [] then
                colonJoin (existingLibDirs os c)
              else colonJoin (existingLibDirs os c) ++ ":".toList ++
                (os.environ dyldKey).getD [])) := by
  refine ⟨rfl, rfl, ?_, ?_⟩
  · intro k hk
    unfold childEnv
    by_cases hd : existingLibDirs os c = []
    · rw [if_pos hd]
    · rw [if_neg hd]
      show (if k = dyldKey then _ else os.environ k) = os.environ k
      rw [if_neg hk]
  · intro hne
    unfold childEnv
    rw [if_neg hne]
    show (if dyldKey = dyldKey then _ else os.environ dyldKey) = _
    rw [if_pos rfl]

/-- C10 witness: the frame statement at a concrete state in which one
candidate library directory exists and DYLD_LIBRARY_PATH has a prior
value, exercising the prepend. -/
theorem local_environ_frame_witness :
    (LocalASRClient.recognize_audio ⟨"/b/bin/cli".toList, "/m".toList⟩
        ⟨fun p => p == "/b/src".toList,
         fun k => if k = dyldKey then some "/old".toList else none,
         fun p => p⟩
        .raisesOther "/a.wav".toList).finalEnviron =
      (fun k => if k = dyldKey then some "/old".toList else none) ∧
    childEnv
        ⟨fun p => p == "/b/src".toList,
         fun k => if k = dyldKey then some "/old".toList else none,
         fun p => p⟩
        ⟨"/b/bin/cli".toList, "/m".toList⟩ "HOME".toList = none ∧
    childEnv
        ⟨fun p => p == "/b/src".toList,
         fun k => if k = dyldKey then some "/old".toList else none,
         fun p => p⟩
        ⟨"/b/bin/cli".toList, "/m".toList⟩ dyldKey =
      some "/b/src:/old".toList := by
  refine ⟨(local_environ_frame _ _ _ _).1, ?_, ?_⟩
  · rw [(local_environ_frame ⟨"/b/bin/cli".toList, "/m".toList⟩
      ⟨fun p => p == "/b/src".toList,
       fun k => if k = dyldKey then some "/old".toList else none,
       fun p => p⟩ .raisesOther "/a.wav".toList).2.2.1 "HOME".toList (by decide)]
    decide
  · rw [(local_environ_frame ⟨"/b/bin/cli".toList, "/m".toList⟩
      ⟨fun p => p == "/b/src".toList,
       fun k => if k = dyldKey then some "/old".toList else none,
       fun p => p⟩ .raisesOther "/a.wav".toList).2.2.2 (by decide)]
    decide
